import Mathlib

/-!
Shallow embedding of the TEM grain-boundary analysis notebook
(`analysis.ipynb`).  The notebook's pipeline is: download + SHA-256 check,
peak detection (external library), neighbourhood feature extraction
(`get_nn_features` against the ambient `cKDTree` called `tree_c`), an
edge filter (`off_edge`), min-max rescaling (`MinMaxScaler`), a feature
subset (`scaled_features[:, [1, 4, 5]]`), clustering (external library,
one opaque integer label per retained row), and pixel-wise label
propagation (`labeled_image`).

Scalars: stored coordinate and feature values are IEEE floats, hence
rational numbers; the query/filter/rescale layers only add, subtract,
multiply, divide and compare them, so they are embedded over `ℚ` and stay
executable.  The feature-vector arithmetic of `get_nn_features` uses
`sqrt`, `arctan2` and `π` and is embedded over `ℝ`.
-/

/-- Squared Euclidean distance between two planar points.  The spatial-index
queries of the notebook only compare distances with distances or with the
nonnegative search bound, and for nonnegative values `d < r ↔ d² < r²`, so
the query layer avoids square roots and stays in `ℚ`. -/
def sqDist (p q : ℚ × ℚ) : ℚ :=
  (p.1 - q.1) * (p.1 - q.1) + (p.2 - q.2) * (p.2 - q.2)

/-- Comparator used to order candidate neighbour indices: strictly nearer
first; ties in distance broken by smaller index (the arbitrary but fixed
tie-break of the spatial index). -/
def nearerB (pts : List (ℚ × ℚ)) (q : ℚ × ℚ) (a b : ℕ) : Bool :=
  decide (sqDist (pts.getD a (0, 0)) q < sqDist (pts.getD b (0, 0)) q) ||
    (decide (sqDist (pts.getD a (0, 0)) q = sqDist (pts.getD b (0, 0)) q) && decide (a ≤ b))

/-- Insert one element into a list that is already ascending for `le`. -/
def insertAsc (le : ℕ → ℕ → Bool) (x : ℕ) : List ℕ → List ℕ
  | [] => [x]
  | y :: ys => if le x y then x :: y :: ys else y :: insertAsc le x ys

/-- Insertion sort with an explicit boolean comparator (kept structural so
that concrete queries evaluate). -/
def sortAsc (le : ℕ → ℕ → Bool) (l : List ℕ) : List ℕ :=
  l.foldr (insertAsc le) []

/-- Qualification test of `cKDTree.query(..., distance_upper_bound=r)`: a
tree point is returned only when its distance to the query point is strictly
below the bound (encoded on squared distances; nothing qualifies for a
nonpositive bound). -/
def qualifies (pts : List (ℚ × ℚ)) (q : ℚ × ℚ) (r : ℚ) (j : ℕ) : Bool :=
  decide (0 < r) && decide (sqDist (pts.getD j (0, 0)) q < r * r)

/-- Embedding of `tree_c.query(q, k=k, distance_upper_bound=r)[1]` for one
query point: the `k` nearest qualifying tree indices in order of increasing
distance, padded to length `k` with the sentinel index `pts.length`, which
the index returns when fewer than `k` neighbours exist within range. -/
def queryIdx (pts : List (ℚ × ℚ)) (q : ℚ × ℚ) (k : ℕ) (r : ℚ) : List ℕ :=
  let hits := sortAsc (nearerB pts q) ((List.range pts.length).filter (qualifies pts q r))
  hits.take k ++ List.replicate (k - hits.length) pts.length

/-- Embedding of
`tree_c.query(coordinates, k=k, distance_upper_bound=max_distance)[1][:, 1:]`:
one row of neighbour indices per query point, with the first column (the
query point itself at distance 0) dropped.  `treePts` is the point set the
ambient index `tree_c` was built over; `coords` is the function argument
`coordinates` of `get_nn_features`. -/
def nearest_neighbor_indices (treePts coords : List (ℚ × ℚ)) (k : ℕ) (r : ℚ) :
    List (List ℕ) :=
  coords.map (fun q => (queryIdx treePts q k r).drop 1)

/-- Embedding of the sentinel filter `nns = nns[nns != coordinates.shape[0]]`. -/
def validNns (n : ℕ) (nns : List ℕ) : List ℕ :=
  nns.filter (fun j => decide (j ≠ n))

/-- Embedding of numpy fancy indexing `coordinates[nns]`: looks every index up
and raises `IndexError` if any index is out of bounds. -/
def nnCoordsLookup (coords : List (ℚ × ℚ)) : List ℕ → Except String (List (ℚ × ℚ))
  | [] => .ok []
  | j :: rest =>
    match coords.get? j with
    | none => .error "IndexError: index out of bounds for axis 0"
    | some c =>
      match nnCoordsLookup coords rest with
      | .error e => .error e
      | .ok cs => .ok (c :: cs)

/-- Mean of a list of reals, `np.mean` (over an empty list numpy produces
`nan` with a runtime warning, not an exception; here `0/0 = 0`, a value no
theorem of this development observes). -/
noncomputable def npMean (xs : List ℝ) : ℝ :=
  xs.sum / xs.length

/-- Population standard deviation, `np.std`. -/
noncomputable def npStd (xs : List ℝ) : ℝ :=
  Real.sqrt (npMean (xs.map (fun x => (x - npMean xs) * (x - npMean xs))))

/-- Consecutive differences, `np.diff`. -/
noncomputable def npDiff (xs : List ℝ) : List ℝ :=
  (xs.zip xs.tail).map (fun p => p.2 - p.1)

/-- Minimum of a list of reals with default `0` for the empty list (used only
where the list is known nonempty, as with `lengths.min()`). -/
noncomputable def listMinD : List ℝ → ℝ
  | [] => 0
  | x :: xs => xs.foldl min x

/-- Maximum of a list of reals with default `0` for the empty list. -/
noncomputable def listMaxD : List ℝ → ℝ
  | [] => 0
  | x :: xs => xs.foldl max x

/-- Embedding of `angles.min()`: `np.min` raises `ValueError` on an empty
array. -/
noncomputable def npMinE (xs : List ℝ) : Except String ℝ :=
  match xs with
  | [] => .error "ValueError: zero-size array to reduction operation minimum which has no identity"
  | x :: rest => .ok (rest.foldl min x)

/-- Ascending sort of a list of reals, `np.sort`. -/
noncomputable def sortR (xs : List ℝ) : List ℝ :=
  List.insertionSort (fun a b => a ≤ b) xs

/-- Two-argument arctangent `np.arctan2 y x`, realised as the argument of the
complex number `x + y i`, with values in `(-π, π]`. -/
noncomputable def atan2 (y x : ℝ) : ℝ :=
  Complex.arg ⟨x, y⟩

/-- Python float modulo by `2π` (result in `[0, 2π)`), used as `% (2*np.pi)`. -/
noncomputable def mod2pi (t : ℝ) : ℝ :=
  t - 2 * Real.pi * ⌊t / (2 * Real.pi)⌋

/-- Embedding of `np.array(obj, dtype)` when the `dtype` argument is an
`np.float64` scalar: numpy's dtype discovery accepts any object whose
`.dtype` attribute is a dtype instance, and `np.float64(x).dtype` is
`dtype('float64')`, so the call is a plain conversion of the already-float64
`obj` and returns its values unchanged.  The source line
`sorted_angles = np.array(np.sort(angles), angles.min()+2*np.pi)` therefore
succeeds, with `angles.min()+2*np.pi` consumed as the dtype: the wraparound
element its comment announces is silently never appended. -/
def npArrayWithDtype (xs : List ℝ) (d : ℝ) : List ℝ :=
  xs

/-- Literal embedding of the body of the `get_nn_features` loop for one point:
sentinel filter, neighbour-coordinate lookup, difference vectors, distance
statistics, angles, and the line
`sorted_angles = np.array(np.sort(angles), angles.min()+2*np.pi)`.  Python
evaluates `angles.min()` first, raising `ValueError` when no neighbour
survived the filter; otherwise the `np.array` call accepts the `np.float64`
scalar as `dtype('float64')` and returns the sorted angles unchanged, so the
increments are taken over the sorted angles without the wraparound element
the inline comment intends. -/
noncomputable def nn_body (coords : List (ℚ × ℚ)) (point_index : ℕ) (nns0 : List ℕ) :
    Except String (Fin 8 → ℝ) :=
  let nns := validNns coords.length nns0
  match nnCoordsLookup coords nns with
  | .error e => .error e
  | .ok nn_coords =>
    match coords.get? point_index with
    | none => .error "IndexError: index out of bounds for axis 0"
    | some point_coords =>
      let difference_vectors := nn_coords.map (fun c => (c.1 - point_coords.1, c.2 - point_coords.2))
      let lengths : List ℝ := difference_vectors.map (fun v => Real.sqrt ((v.1 : ℝ) * (v.1 : ℝ) + (v.2 : ℝ) * (v.2 : ℝ)))
      let average_length := npMean lengths
      let std_length := npStd lengths
      let angles := difference_vectors.map (fun v => mod2pi (atan2 (v.2 : ℝ) (v.1 : ℝ)))
      match npMinE angles with
      | .error e => .error e
      | .ok amin =>
        let sorted_angles := npArrayWithDtype (sortR angles) (amin + 2 * Real.pi)
        let angle_increments := npDiff sorted_angles
        .ok ![average_length, std_length, npMean angle_increments,
              npStd angle_increments, amin, (nns.length : ℝ),
              listMinD lengths, listMaxD lengths]

/-- Modelled intent of the same loop body: the slipped line carries the
comment "add the first angle again + 2*pi because we care about increments",
i.e. `np.append(np.sort(angles), angles.min() + 2*np.pi)`; everything else is
unchanged.  Feature layout per the source: 0 mean distance, 1 distance std,
2 mean angular increment, 3 increment std, 4 minimum angle, 5 neighbour
count (`vertices`), 6 minimum distance, 7 maximum distance. -/
noncomputable def nn_body_fixed (coords : List (ℚ × ℚ)) (point_index : ℕ) (nns0 : List ℕ) :
    Except String (Fin 8 → ℝ) :=
  let nns := validNns coords.length nns0
  match nnCoordsLookup coords nns with
  | .error e => .error e
  | .ok nn_coords =>
    match coords.get? point_index with
    | none => .error "IndexError: index out of bounds for axis 0"
    | some point_coords =>
      let difference_vectors := nn_coords.map (fun c => (c.1 - point_coords.1, c.2 - point_coords.2))
      let lengths : List ℝ := difference_vectors.map (fun v => Real.sqrt ((v.1 : ℝ) * (v.1 : ℝ) + (v.2 : ℝ) * (v.2 : ℝ)))
      let average_length := npMean lengths
      let std_length := npStd lengths
      let angles := difference_vectors.map (fun v => mod2pi (atan2 (v.2 : ℝ) (v.1 : ℝ)))
      match npMinE angles with
      | .error e => .error e
      | .ok amin =>
        let sorted_angles := sortR angles ++ [amin + 2 * Real.pi]
        let angle_increments := npDiff sorted_angles
        .ok ![average_length, std_length, npMean angle_increments,
              npStd angle_increments, amin, (nns.length : ℝ),
              listMinD lengths, listMaxD lengths]

/-- Row loop of `get_nn_features` (literal body): fills one feature row per
point; the first raised exception aborts the whole call. -/
noncomputable def gnf_loop (coords : List (ℚ × ℚ)) : ℕ → List (List ℕ) → Except String (List (Fin 8 → ℝ))
  | _, [] => .ok []
  | i, nns :: rest =>
    match nn_body coords i nns with
    | .error e => .error e
    | .ok f =>
      match gnf_loop coords (i + 1) rest with
      | .error e => .error e
      | .ok fs => .ok (f :: fs)

/-- Row loop with the intended (`np.append`) body. -/
noncomputable def gnf_loop_fixed (coords : List (ℚ × ℚ)) : ℕ → List (List ℕ) → Except String (List (Fin 8 → ℝ))
  | _, [] => .ok []
  | i, nns :: rest =>
    match nn_body_fixed coords i nns with
    | .error e => .error e
    | .ok f =>
      match gnf_loop_fixed coords (i + 1) rest with
      | .error e => .error e
      | .ok fs => .ok (f :: fs)

/-- Literal embedding of `get_nn_features(coordinates, max_distance, k)`.
The notebook function closes over the ambient spatial index `tree_c`, built
once over the global point set `columns`; `treePts` models that point set,
`coordinates` the function argument.  An empty `coordinates` yields the empty
(0 × 8) feature array. -/
noncomputable def get_nn_features (treePts coordinates : List (ℚ × ℚ))
    (max_distance : ℚ := 12) (k : ℕ := 10) : Except String (List (Fin 8 → ℝ)) :=
  gnf_loop coordinates 0 (nearest_neighbor_indices treePts coordinates k max_distance)

/-- The intended (`np.append`) variant of `get_nn_features`. -/
noncomputable def get_nn_features_fixed (treePts coordinates : List (ℚ × ℚ))
    (max_distance : ℚ := 12) (k : ℕ := 10) : Except String (List (Fin 8 → ℝ)) :=
  gnf_loop_fixed coordinates 0 (nearest_neighbor_indices treePts coordinates k max_distance)

/-- The `vertices = nns.shape[0]` value (feature index 5) per point: the
number of indices in each row that survive the sentinel filter.  This is the
computable projection of the loop body that feeds `features[:, 5]`. -/
def vertices_of (treePts coords : List (ℚ × ℚ)) (r : ℚ) (k : ℕ) : List ℕ :=
  (nearest_neighbor_indices treePts coords k r).map
    (fun nns => (validNns coords.length nns).length)

/-- Specification-side count, following the claim's words: the number of
neighbours of point `i` strictly within distance `r`, excluding the point
itself (squared-distance encoding of `dist < r`, which for a distance requires
`0 < r`). -/
def strictWithinCount (pts : List (ℚ × ℚ)) (i : ℕ) (r : ℚ) : ℕ :=
  ((List.range pts.length).filter
    (fun j => decide (j ≠ i) && decide (0 < r) &&
      decide (sqDist (pts.getD j (0, 0)) (pts.getD i (0, 0)) < r * r))).length

/-- The intended angular-increment computation on a list of neighbour angles:
sort ascending, append the minimum angle plus `2π`, take consecutive
differences (the minimum of the angles is the first sorted angle). -/
noncomputable def angle_increments_intended (angles : List ℝ) : List ℝ :=
  npDiff (sortR angles ++ [listMinD angles + 2 * Real.pi])

/-- The angular-increment computation the literal line performs: the
`np.float64`-scalar dtype makes `np.array` return the sorted angles
unchanged, so the consecutive differences are taken without any wraparound
element. -/
noncomputable def angle_increments_literal (angles : List ℝ) : List ℝ :=
  npDiff (npArrayWithDtype (sortR angles) (listMinD angles + 2 * Real.pi))

/-- Angle list of one loop iteration of `get_nn_features`: the angles (in
`[0, 2π)`) of the displacement vectors from the point to its surviving
neighbours, in query order, exactly as the loop body computes them. -/
noncomputable def row_angles (coords : List (ℚ × ℚ)) (point_index : ℕ) (nns0 : List ℕ) :
    List ℝ :=
  (((validNns coords.length nns0).map (fun j => coords.getD j (0, 0))).map
      (fun c => (c.1 - (coords.getD point_index (0, 0)).1,
        c.2 - (coords.getD point_index (0, 0)).2))).map
    (fun v => mod2pi (atan2 (v.2 : ℝ) (v.1 : ℝ)))

/-- Concrete probe point set: a centre with three unit-distance neighbours at
angles 0°, 90° and 180° (all within radius 2 of the centre, and the two
opposite arms exactly at distance 2 of each other, hence outside the strict
bound). -/
def probe_points : List (ℚ × ℚ) :=
  [((0 : ℚ), (0 : ℚ)), (1, 0), (0, 1), (-1, 0)]

/-- The six neighbour angles of the synthetic hexagonal ring named by the
spec: 0°, 60°, 120°, 180°, 240°, 300° in radians. -/
noncomputable def hexAngles : List ℝ :=
  [0, Real.pi / 3, 2 * Real.pi / 3, Real.pi, 4 * Real.pi / 3, 5 * Real.pi / 3]

/-- Expected SHA-256 hex digest of the downloaded dataset, fixed in the
hash-checking bash cell. -/
def expected_hash : String :=
  "777a5f480c5b10288bb9c83c12be440408e7dd25620adc56b5fad27bbfc65d05"

/-- Outcome of one notebook stage: either the run proceeds to the next cell
(possibly after echoing a message) or it aborts. -/
inductive StageOutcome where
  | proceed (message : String)
  | abort (message : String)

/-- Embedding of the hash-checking bash cell: compare the computed digest with
`expected_hash` and echo a message; neither branch calls `exit`, so execution
falls through to the next cell in both cases. -/
def hash_check_cell (hash : String) : StageOutcome :=
  if hash = expected_hash then
    .proceed "Hash is ok"
  else
    .proceed "Wrong hash! This may be the wrong file, or it may have been tampered with."

/-- Numpy boolean-mask selection `xs[mask]`: keep, in order, the entries whose
mask bit is true (defined for equal lengths, as in the notebook). -/
def boolMask {α : Type} (xs : List α) (mask : List Bool) : List α :=
  ((xs.zip mask).filter (fun p => p.2)).map Prod.fst

/-- Embedding of `off_edge = features[:, 5] >= 5` on stored feature rows. -/
def off_edge_mask (features : List (Fin 8 → ℚ)) : List Bool :=
  features.map (fun f => decide (5 ≤ f 5))

/-- Embedding of `filtered_features = features[off_edge]`. -/
def filtered_features (features : List (Fin 8 → ℚ)) : List (Fin 8 → ℚ) :=
  boolMask features (off_edge_mask features)

/-- Minimum of a list of rationals with default `0` for the empty list. -/
def listMinQ : List ℚ → ℚ
  | [] => 0
  | x :: xs => xs.foldl min x

/-- Maximum of a list of rationals with default `0` for the empty list. -/
def listMaxQ : List ℚ → ℚ
  | [] => 0
  | x :: xs => xs.foldl max x

/-- Scikit-learn `_handle_zeros_in_scale`: a zero data range is replaced by 1
so that constant columns map to 0 instead of dividing by zero. -/
def handle_zeros_in_scale (s : ℚ) : ℚ :=
  if s = 0 then 1 else s

/-- Per-entry transform of `MinMaxScaler` (default feature range (0, 1)):
`(x - data_min) / (data_max - data_min)` with zero ranges handled as in
scikit-learn. -/
def scaleEntry (col : List ℚ) (x : ℚ) : ℚ :=
  (x - listMinQ col) / handle_zeros_in_scale (listMaxQ col - listMinQ col)

/-- Column-wise min-max rescaling of one feature column. -/
def minmax_scale_col (col : List ℚ) : List ℚ :=
  col.map (scaleEntry col)

/-- Embedding of `MinMaxScaler().fit_transform(filtered_features)`: every
column is independently rescaled by its own minimum and range. -/
def fit_transform (rows : List (Fin 8 → ℚ)) : List (Fin 8 → ℚ)  :=
  rows.map (fun f j => scaleEntry (rows.map (fun g => g j)) (f j))

/-- Embedding of the feature subset `scaled_features[:, [1, 4, 5]]` taken as
clustering input. -/
def feature_subset (f : Fin 8 → ℚ) : Fin 3 → ℚ :=
  ![f 1, f 4, f 5]

/-- Rows handed to the clustering model (`datafit`). -/
def datafit (scaled : List (Fin 8 → ℚ)) : List (Fin 3 → ℚ) :=
  scaled.map feature_subset

/-- Embedding of `tree.query(coords)[1]` for a single pixel: the index of the
nearest interior point, ties broken towards the smaller index; on an empty
point set scipy returns the sentinel `n = 0`. -/
def nearest_point_idx (pts : List (ℚ × ℚ)) (q : ℚ × ℚ) : ℕ :=
  match List.range pts.length with
  | [] => 0
  | j :: js =>
    js.foldl (fun b a => if sqDist (pts.getD a (0, 0)) q < sqDist (pts.getD b (0, 0)) q then a else b) j

/-- Embedding of `np.stack([X.ravel(), Y.ravel()]).T` for
`Y, X = np.mgrid[0:h, 0:w]`: all pixel coordinates `(x, y)` in row-major
order (`y` outer, `x` inner). -/
def mgrid_coords (h w : ℕ) : List (ℚ × ℚ) :=
  (List.range h).flatMap (fun (y : ℕ) => (List.range w).map (fun (x : ℕ) => ((x : ℚ), (y : ℚ))))

/-- Embedding of `cluster_model_1.labels_[nearest_point]`: index the label
vector with every query result, raising `IndexError` on an out-of-bounds
index. -/
def lookupLabels (labels : List ℤ) : List ℕ → Except String (List ℤ)
  | [] => .ok []
  | i :: rest =>
    match labels.get? i with
    | none => .error "IndexError: index out of bounds for axis 0"
    | some l =>
      match lookupLabels labels rest with
      | .error e => .error e
      | .ok ls => .ok (l :: ls)

/-- Embedding of `classification.reshape(sub_image.shape)`: cut the flat
classification into `h` rows of `w` pixels. -/
def reshape2 (xs : List ℤ) (h w : ℕ) : List (List ℤ) :=
  (List.range h).map (fun y => (xs.drop (y * w)).take w)

/-- Embedding of the label-propagation cell: build an index over the interior
points, query the nearest interior point for every pixel of the `h × w`
sub-image, copy its cluster label, and reshape to the image shape. -/
def labeled_image (pts : List (ℚ × ℚ)) (labels : List ℤ) (h w : ℕ) :
    Except String (List (List ℤ)) :=
  match lookupLabels labels ((mgrid_coords h w).map (nearest_point_idx pts)) with
  | .error e => .error e
  | .ok classification => .ok (reshape2 classification h w)

/-! ### Generic list helpers -/

theorem boolMask_cons {α : Type} (x : α) (xs : List α) (b : Bool) (m : List Bool) :
    boolMask (x :: xs) (b :: m) = if b then x :: boolMask xs m else boolMask xs m := by
  cases b <;> simp [boolMask]

theorem boolMask_map_self {α : Type} (p : α → Bool) (xs : List α) :
    boolMask xs (xs.map p) = xs.filter p := by
  induction xs with
  | nil => rfl
  | cons x xs ih =>
    rw [List.map_cons, boolMask_cons, List.filter_cons]
    cases h : p x <;> simp [ih]

theorem foldl_min_le {α : Type} [LinearOrder α] (xs : List α) (x : α) :
    xs.foldl min x ≤ x ∧ ∀ y ∈ xs, xs.foldl min x ≤ y := by
  induction xs generalizing x with
  | nil => simp
  | cons y ys ih =>
    refine ⟨le_trans (ih (min x y)).1 (min_le_left _ _), ?_⟩
    intro z hz
    rcases List.mem_cons.mp hz with rfl | hz
    · exact le_trans (ih (min x z)).1 (min_le_right _ _)
    · exact (ih (min x y)).2 z hz

theorem foldl_min_mem {α : Type} [LinearOrder α] (xs : List α) (x : α) :
    xs.foldl min x ∈ x :: xs := by
  induction xs generalizing x with
  | nil => simp
  | cons y ys ih =>
    rw [List.foldl_cons]
    have h := ih (min x y)
    rcases List.mem_cons.mp h with h | h
    · rcases min_choice x y with hm | hm
      · rw [h, hm]; exact List.mem_cons_self _ _
      · rw [h, hm]; exact List.mem_cons_of_mem _ (List.mem_cons_self _ _)
    · exact List.mem_cons_of_mem _ (List.mem_cons_of_mem _ h)

theorem foldl_max_ge {α : Type} [LinearOrder α] (xs : List α) (x : α) :
    x ≤ xs.foldl max x ∧ ∀ y ∈ xs, y ≤ xs.foldl max x := by
  induction xs generalizing x with
  | nil => simp
  | cons y ys ih =>
    refine ⟨le_trans (le_max_left _ _) (ih (max x y)).1, ?_⟩
    intro z hz
    rcases List.mem_cons.mp hz with rfl | hz
    · exact le_trans (le_max_right _ _) (ih (max x z)).1
    · exact (ih (max x y)).2 z hz

theorem foldl_max_mem {α : Type} [LinearOrder α] (xs : List α) (x : α) :
    xs.foldl max x ∈ x :: xs := by
  induction xs generalizing x with
  | nil => simp
  | cons y ys ih =>
    rw [List.foldl_cons]
    have h := ih (max x y)
    rcases List.mem_cons.mp h with h | h
    · rcases max_choice x y with hm | hm
      · rw [h, hm]; exact List.mem_cons_self _ _
      · rw [h, hm]; exact List.mem_cons_of_mem _ (List.mem_cons_self _ _)
    · exact List.mem_cons_of_mem _ (List.mem_cons_of_mem _ h)

theorem listMinQ_le (l : List ℚ) (x : ℚ) (hx : x ∈ l) : listMinQ l ≤ x := by
  cases l with
  | nil => cases hx
  | cons a as =>
    rcases List.mem_cons.mp hx with rfl | hx
    · exact (foldl_min_le as x).1
    · exact (foldl_min_le as a).2 x hx

theorem listMaxQ_ge (l : List ℚ) (x : ℚ) (hx : x ∈ l) : x ≤ listMaxQ l := by
  cases l with
  | nil => cases hx
  | cons a as =>
    rcases List.mem_cons.mp hx with rfl | hx
    · exact (foldl_max_ge as x).1
    · exact (foldl_max_ge as a).2 x hx

theorem listMinQ_mem (l : List ℚ) (h : l ≠ []) : listMinQ l ∈ l := by
  cases l with
  | nil => exact absurd rfl h
  | cons a as => exact foldl_min_mem as a

theorem listMaxQ_mem (l : List ℚ) (h : l ≠ []) : listMaxQ l ∈ l := by
  cases l with
  | nil => exact absurd rfl h
  | cons a as => exact foldl_max_mem as a

theorem listMinQ_map_mono (f : ℚ → ℚ) (hf : Monotone f) (l : List ℚ) (hne : l ≠ []) :
    listMinQ (l.map f) = f (listMinQ l) := by
  apply le_antisymm
  · exact listMinQ_le _ _ (List.mem_map_of_mem f (listMinQ_mem l hne))
  · have hm : listMinQ (l.map f) ∈ l.map f := listMinQ_mem _ (by simpa using hne)
    rcases List.mem_map.mp hm with ⟨y, hy, hfy⟩
    rw [← hfy]
    exact hf (listMinQ_le l y hy)

theorem listMaxQ_map_mono (f : ℚ → ℚ) (hf : Monotone f) (l : List ℚ) (hne : l ≠ []) :
    listMaxQ (l.map f) = f (listMaxQ l) := by
  apply le_antisymm
  · have hm : listMaxQ (l.map f) ∈ l.map f := listMaxQ_mem _ (by simpa using hne)
    rcases List.mem_map.mp hm with ⟨y, hy, hfy⟩
    rw [← hfy]
    exact hf (listMaxQ_ge l y hy)
  · exact listMaxQ_ge _ _ (List.mem_map_of_mem f (listMaxQ_mem l hne))

/-! ### C4: hash mismatch warns and proceeds -/

/-- C4: when the SHA-256 digest of the downloaded file differs from the fixed
expected hex digest, the integrity-check cell only echoes the warning message
and the run proceeds; no mismatch aborts the run. -/
theorem hash_mismatch_only_warns (h : String) (hne : h ≠ expected_hash) :
    hash_check_cell h =
        .proceed "Wrong hash! This may be the wrong file, or it may have been tampered with." ∧
      ∀ m, hash_check_cell h ≠ .abort m := by
  refine ⟨by simp [hash_check_cell, hne], ?_⟩
  intro m
  simp [hash_check_cell, hne]

/-- Witness for C4 at a concrete wrong digest. -/
theorem hash_mismatch_only_warns_witness :
    "deadbeef" ≠ expected_hash ∧
      hash_check_cell "deadbeef" =
        .proceed "Wrong hash! This may be the wrong file, or it may have been tampered with." :=
  ⟨by decide, (hash_mismatch_only_warns "deadbeef" (by decide)).1⟩

/-! ### C5: the interior filter keeps exactly the rows with feature 5 at least 5 -/

/-- C5: the interior/edge partition keeps exactly the feature rows whose
valid-neighbour count (feature index 5) is at least 5; a row with count 4 is
excluded and a row with count 5 is retained. -/
theorem off_edge_boundary (features : List (Fin 8 → ℚ)) (f : Fin 8 → ℚ) :
    (f ∈ filtered_features features ↔ f ∈ features ∧ 5 ≤ f 5) ∧
      (f 5 = 4 → f ∉ filtered_features features) ∧
      (f ∈ features → f 5 = 5 → f ∈ filtered_features features) := by
  have hmain : filtered_features features = features.filter (fun g => decide (5 ≤ g 5)) :=
    boolMask_map_self _ _
  refine ⟨?_, ?_, ?_⟩
  · rw [hmain]
    simp [List.mem_filter]
  · intro h4 hmem
    rw [hmain] at hmem
    have hb := (List.mem_filter.mp hmem).2
    rw [h4] at hb
    norm_num at hb
  · intro hmem h5
    rw [hmain]
    refine List.mem_filter.mpr ⟨hmem, ?_⟩
    rw [h5]
    norm_num

/-- Witness for C5: a row with feature 5 equal to 4 is dropped and a row with
feature 5 equal to 5 is kept. -/
theorem off_edge_boundary_witness :
    (fun _ : Fin 8 => (4 : ℚ)) 5 = 4 ∧
      (fun _ : Fin 8 => (4 : ℚ)) ∉
        filtered_features [fun _ => (4 : ℚ), fun _ => (5 : ℚ)] ∧
      (fun _ : Fin 8 => (5 : ℚ)) ∈
        filtered_features [fun _ => (4 : ℚ), fun _ => (5 : ℚ)] :=
  ⟨rfl,
   (off_edge_boundary [fun _ => (4 : ℚ), fun _ => (5 : ℚ)] _).2.1 rfl,
   (off_edge_boundary [fun _ => (4 : ℚ), fun _ => (5 : ℚ)] _).2.2 (by simp) rfl⟩

/-! ### C6: min-max rescaling round trip -/

/-- C6: for every feature column with non-zero variance (minimum distinct from
maximum), the min-max rescaled column of `fit_transform` has minimum exactly 0
and maximum exactly 1. -/
theorem minmax_roundtrip (rows : List (Fin 8 → ℚ)) (j : Fin 8)
    (hne : rows ≠ [])
    (hvar : listMinQ (rows.map (fun f => f j)) ≠ listMaxQ (rows.map (fun f => f j))) :
    listMinQ ((fit_transform rows).map (fun f => f j)) = 0 ∧
      listMaxQ ((fit_transform rows).map (fun f => f j)) = 1 := by
  have hcolne : rows.map (fun f => f j) ≠ [] := by simpa using hne
  have hle : listMinQ (rows.map (fun f => f j)) ≤ listMaxQ (rows.map (fun f => f j)) :=
    listMaxQ_ge _ _ (listMinQ_mem _ hcolne)
  have hlt : listMinQ (rows.map (fun f => f j)) < listMaxQ (rows.map (fun f => f j)) :=
    lt_of_le_of_ne hle hvar
  have hpos : 0 < listMaxQ (rows.map (fun f => f j)) - listMinQ (rows.map (fun f => f j)) :=
    sub_pos.mpr hlt
  have hd : handle_zeros_in_scale
      (listMaxQ (rows.map (fun f => f j)) - listMinQ (rows.map (fun f => f j))) =
      listMaxQ (rows.map (fun f => f j)) - listMinQ (rows.map (fun f => f j)) := by
    unfold handle_zeros_in_scale
    rw [if_neg (ne_of_gt hpos)]
  have hcoltrans : (fit_transform rows).map (fun f => f j) =
      (rows.map (fun f => f j)).map (scaleEntry (rows.map (fun f => f j))) := by
    unfold fit_transform
    rw [List.map_map, List.map_map]
    rfl
  have hmono : Monotone (scaleEntry (rows.map (fun f => f j))) := by
    intro a b hab
    unfold scaleEntry
    rw [hd]
    exact div_le_div_of_nonneg_right (sub_le_sub_right hab _) hpos.le
  rw [hcoltrans]
  constructor
  · rw [listMinQ_map_mono _ hmono _ hcolne]
    unfold scaleEntry
    rw [hd]
    simp
  · rw [listMaxQ_map_mono _ hmono _ hcolne]
    unfold scaleEntry
    rw [hd]
    exact div_self (ne_of_gt hpos)

/-- Witness for C6 on a concrete two-row feature array whose column 0 holds
the distinct values 0 and 2. -/
theorem minmax_roundtrip_witness :
    ([fun _ => (0 : ℚ), fun _ => (2 : ℚ)] : List (Fin 8 → ℚ)) ≠ [] ∧
      listMinQ (([fun _ => (0 : ℚ), fun _ => (2 : ℚ)] : List (Fin 8 → ℚ)).map (fun f => f 0)) ≠
        listMaxQ (([fun _ => (0 : ℚ), fun _ => (2 : ℚ)] : List (Fin 8 → ℚ)).map (fun f => f 0)) ∧
      listMinQ ((fit_transform ([fun _ => (0 : ℚ), fun _ => (2 : ℚ)] : List (Fin 8 → ℚ))).map
        (fun f => f 0)) = 0 ∧
      listMaxQ ((fit_transform ([fun _ => (0 : ℚ), fun _ => (2 : ℚ)] : List (Fin 8 → ℚ))).map
        (fun f => f 0)) = 1 := by
  have h1 : ([fun _ => (0 : ℚ), fun _ => (2 : ℚ)] : List (Fin 8 → ℚ)) ≠ [] := by simp
  have h2 : listMinQ (([fun _ => (0 : ℚ), fun _ => (2 : ℚ)] : List (Fin 8 → ℚ)).map (fun f => f 0)) ≠
      listMaxQ (([fun _ => (0 : ℚ), fun _ => (2 : ℚ)] : List (Fin 8 → ℚ)).map (fun f => f 0)) := by
    norm_num [listMinQ, listMaxQ, min_def, max_def]
  obtain ⟨ha, hb⟩ := minmax_roundtrip ([fun _ => (0 : ℚ), fun _ => (2 : ℚ)] : List (Fin 8 → ℚ)) 0 h1 h2
  exact ⟨h1, h2, ha, hb⟩

/-! ### C10: boolean-mask filtering keeps rows, positions and labels aligned -/

theorem boolMask_zip {α β : Type} (xs : List α) (ys : List β) (m : List Bool) :
    (boolMask xs m).zip (boolMask ys m) = boolMask (xs.zip ys) m := by
  induction m generalizing xs ys with
  | nil => simp [boolMask]
  | cons b mm ih =>
    cases xs with
    | nil => simp [boolMask]
    | cons x xs =>
      cases ys with
      | nil => simp [boolMask]
      | cons y ys =>
        rw [List.zip_cons_cons, boolMask_cons, boolMask_cons, boolMask_cons]
        cases b with
        | false => simpa using ih xs ys
        | true => simpa [List.zip_cons_cons] using ih xs ys

theorem boolMask_sublist {α : Type} (xs : List α) (m : List Bool) :
    (boolMask xs m).Sublist xs := by
  induction xs generalizing m with
  | nil => simp [boolMask]
  | cons x xs ih =>
    cases m with
    | nil => simp [boolMask]
    | cons b mm =>
      rw [boolMask_cons]
      cases b with
      | false => simpa using (ih mm).cons x
      | true => simpa using (ih mm).cons₂ x

theorem boolMask_length_eq {α β : Type} (xs : List α) (ys : List β) (m : List Bool)
    (h : xs.length = ys.length) : (boolMask xs m).length = (boolMask ys m).length := by
  induction m generalizing xs ys with
  | nil => simp [boolMask]
  | cons b mm ih =>
    cases xs with
    | nil =>
      cases ys with
      | nil => rfl
      | cons y ys => simp at h
    | cons x xs =>
      cases ys with
      | nil => simp at h
      | cons y ys =>
        have h2 : xs.length = ys.length := by simpa using h
        rw [boolMask_cons, boolMask_cons]
        cases b with
        | false => simpa using ih xs ys h2
        | true => simpa using ih xs ys h2

/-- C10: the interior mask is applied order-preservingly to the feature array
and the position array, every filtered index pair originates from one common
index of the unfiltered arrays, and the clustering input (`datafit` of the
rescaled rows) is row-aligned with the filtered features, so position,
features and cluster label at each index describe the same detected column. -/
theorem mask_alignment (features : List (Fin 8 → ℚ)) (coords : List (ℚ × ℚ))
    (hlen : coords.length = features.length) :
    ((boolMask features (off_edge_mask features)).zip
        (boolMask coords (off_edge_mask features))).Sublist (features.zip coords) ∧
      (boolMask features (off_edge_mask features)).length =
        (boolMask coords (off_edge_mask features)).length ∧
      (∀ i, i < (boolMask features (off_edge_mask features)).length →
        ∃ j, ∃ hjf : j < features.length, ∃ hjc : j < coords.length,
          (boolMask features (off_edge_mask features)).getD i (fun _ => 0) = features[j] ∧
          (boolMask coords (off_edge_mask features)).getD i ((0 : ℚ), (0 : ℚ)) = coords[j]) ∧
      (datafit (fit_transform (boolMask features (off_edge_mask features)))).length =
        (boolMask features (off_edge_mask features)).length ∧
      (∀ i, i < (boolMask features (off_edge_mask features)).length →
        (datafit (fit_transform (boolMask features (off_edge_mask features)))).getD i
            (fun _ => 0) =
          feature_subset ((fit_transform (boolMask features (off_edge_mask features))).getD i
            (fun _ => 0))) := by
  have hsub : ((boolMask features (off_edge_mask features)).zip
      (boolMask coords (off_edge_mask features))).Sublist (features.zip coords) := by
    rw [boolMask_zip]
    exact boolMask_sublist _ _
  have hleneq : (boolMask features (off_edge_mask features)).length =
      (boolMask coords (off_edge_mask features)).length :=
    boolMask_length_eq features coords _ hlen.symm
  refine ⟨hsub, hleneq, ?_, ?_, ?_⟩
  · intro i hi
    have hic : i < (boolMask coords (off_edge_mask features)).length := hleneq ▸ hi
    have hz : i < ((boolMask features (off_edge_mask features)).zip
        (boolMask coords (off_edge_mask features))).length := by
      rw [List.length_zip]
      exact lt_min hi hic
    have hpair : ((boolMask features (off_edge_mask features)).zip
        (boolMask coords (off_edge_mask features)))[i] =
        ((boolMask features (off_edge_mask features))[i],
          (boolMask coords (off_edge_mask features))[i]) := List.getElem_zip
    have hmem : ((boolMask features (off_edge_mask features)).zip
        (boolMask coords (off_edge_mask features)))[i] ∈ features.zip coords :=
      hsub.subset (List.getElem_mem hz)
    rcases List.mem_iff_getElem.mp hmem with ⟨m, hm, hmv⟩
    have hmf : m < features.length := by
      rw [List.length_zip] at hm
      omega
    have hmc : m < coords.length := by
      rw [List.length_zip] at hm
      omega
    refine ⟨m, hmf, hmc, ?_, ?_⟩
    · rw [List.getD_eq_getElem _ _ hi]
      have hcomp := hmv.trans hpair
      rw [List.getElem_zip] at hcomp
      exact ((Prod.mk.injEq _ _ _ _).mp hcomp).1.symm
    · rw [List.getD_eq_getElem _ _ hic]
      have hcomp := hmv.trans hpair
      rw [List.getElem_zip] at hcomp
      exact ((Prod.mk.injEq _ _ _ _).mp hcomp).2.symm
  · simp [datafit, fit_transform]
  · intro i hi
    have hft : i < (fit_transform (boolMask features (off_edge_mask features))).length := by
      simpa [fit_transform] using hi
    have hdf : i < (datafit (fit_transform (boolMask features (off_edge_mask features)))).length := by
      simpa [datafit, fit_transform] using hi
    rw [List.getD_eq_getElem _ _ hdf, List.getD_eq_getElem _ _ hft]
    simp [datafit]

/-- Witness for C10 on a concrete pair of arrays of equal length. -/
theorem mask_alignment_witness :
    (([((1 : ℚ), (2 : ℚ)), ((3 : ℚ), (4 : ℚ))]).length =
        ([fun _ => (5 : ℚ), fun _ => (4 : ℚ)] : List (Fin 8 → ℚ)).length) ∧
      ((boolMask ([fun _ => (5 : ℚ), fun _ => (4 : ℚ)] : List (Fin 8 → ℚ))
          (off_edge_mask [fun _ => (5 : ℚ), fun _ => (4 : ℚ)])).zip
        (boolMask [((1 : ℚ), (2 : ℚ)), ((3 : ℚ), (4 : ℚ))]
          (off_edge_mask [fun _ => (5 : ℚ), fun _ => (4 : ℚ)]))).Sublist
        (([fun _ => (5 : ℚ), fun _ => (4 : ℚ)] : List (Fin 8 → ℚ)).zip
          [((1 : ℚ), (2 : ℚ)), ((3 : ℚ), (4 : ℚ))]) :=
  ⟨rfl, (mask_alignment [fun _ => (5 : ℚ), fun _ => (4 : ℚ)]
    [((1 : ℚ), (2 : ℚ)), ((3 : ℚ), (4 : ℚ))] rfl).1⟩

/-! ### Spatial-index query lemmas -/

theorem insertAsc_perm (le : ℕ → ℕ → Bool) (x : ℕ) (l : List ℕ) :
    (insertAsc le x l).Perm (x :: l) := by
  induction l with
  | nil => exact List.Perm.refl _
  | cons y ys ih =>
    unfold insertAsc
    by_cases h : le x y
    · rw [if_pos h]
    · rw [if_neg h]
      exact (ih.cons y).trans (List.Perm.swap x y ys)

theorem sortAsc_perm (le : ℕ → ℕ → Bool) (l : List ℕ) : (sortAsc le l).Perm l := by
  induction l with
  | nil => exact List.Perm.refl _
  | cons x xs ih =>
    have h : sortAsc le (x :: xs) = insertAsc le x (sortAsc le xs) := rfl
    rw [h]
    exact (insertAsc_perm le x (sortAsc le xs)).trans (ih.cons x)

theorem sortAsc_mem (le : ℕ → ℕ → Bool) (l : List ℕ) (a : ℕ) :
    a ∈ sortAsc le l ↔ a ∈ l :=
  (sortAsc_perm le l).mem_iff

theorem sortAsc_length (le : ℕ → ℕ → Bool) (l : List ℕ) :
    (sortAsc le l).length = l.length :=
  (sortAsc_perm le l).length_eq

theorem queryIdx_mem (pts : List (ℚ × ℚ)) (q : ℚ × ℚ) (k : ℕ) (r : ℚ) (j : ℕ)
    (hj : j ∈ queryIdx pts q k r) : j < pts.length ∨ j = pts.length := by
  simp only [queryIdx] at hj
  rcases List.mem_append.mp hj with h | h
  · left
    have h1 : j ∈ sortAsc (nearerB pts q) ((List.range pts.length).filter (qualifies pts q r)) :=
      List.take_subset _ _ h
    have h2 := (sortAsc_mem _ _ _).mp h1
    exact List.mem_range.mp (List.mem_filter.mp h2).1
  · right
    exact (List.mem_replicate.mp h).2

theorem nnCoordsLookup_ok (coords : List (ℚ × ℚ)) (l : List ℕ)
    (h : ∀ j ∈ l, j < coords.length) :
    nnCoordsLookup coords l = .ok (l.map (fun j => coords.getD j (0, 0))) := by
  induction l with
  | nil => rfl
  | cons j rest ih =>
    have hj := h j (List.mem_cons_self _ _)
    have hg : coords.get? j = some (coords.getD j (0, 0)) := by
      rw [List.get?_eq_getElem?, List.getElem?_eq_getElem hj, List.getD_eq_getElem _ _ hj]
    have hr := ih (fun x hx => h x (List.mem_cons_of_mem _ hx))
    unfold nnCoordsLookup
    rw [hg, hr]
    rfl

/-! ### C8: surviving neighbour indices are in bounds -/

/-- C8: `get_nn_features` queries the ambient index `tree_c` (here the
`treePts` argument); when the coordinates argument equals the point set the
index was built over, every neighbour index surviving the sentinel filter is
strictly below the point count, so the `coordinates[nns]` lookup succeeds and
the out-of-bounds branch is unreachable. -/
theorem tree_query_indices_in_bounds (coords : List (ℚ × ℚ)) (r : ℚ) (k : ℕ)
    (nns : List ℕ) (hmem : nns ∈ nearest_neighbor_indices coords coords k r) :
    (∀ j ∈ validNns coords.length nns, j < coords.length) ∧
      nnCoordsLookup coords (validNns coords.length nns) =
        .ok ((validNns coords.length nns).map (fun j => coords.getD j (0, 0))) := by
  unfold nearest_neighbor_indices at hmem
  have hb : ∀ j ∈ validNns coords.length nns, j < coords.length := by
    intro j hjv
    have hjn : j ∈ nns := (List.mem_filter.mp hjv).1
    have hne : j ≠ coords.length := by
      have := (List.mem_filter.mp hjv).2
      simpa using this
    rcases List.mem_map.mp hmem with ⟨qp, hqp, hrow⟩
    have hjd : j ∈ (queryIdx coords qp k r).drop 1 := by
      rw [hrow]
      exact hjn
    have hjq : j ∈ queryIdx coords qp k r := List.drop_subset _ _ hjd
    rcases queryIdx_mem coords qp k r j hjq with h | h
    · exact h
    · exact absurd h hne
  exact ⟨hb, nnCoordsLookup_ok coords _ hb⟩

/-- Neighbour-index rows of a 3-4-5 triangle of points at radius 11 with the
default cap 10. -/
theorem triangle_rows :
    nearest_neighbor_indices [((0 : ℚ), (0 : ℚ)), (3, 0), (0, 4)]
      [((0 : ℚ), (0 : ℚ)), (3, 0), (0, 4)] 10 11 =
      [[1, 2, 3, 3, 3, 3, 3, 3, 3], [0, 2, 3, 3, 3, 3, 3, 3, 3],
        [0, 1, 3, 3, 3, 3, 3, 3, 3]] := by
  norm_num [nearest_neighbor_indices, queryIdx, sortAsc, insertAsc, nearerB, qualifies,
    sqDist, List.range_succ, List.replicate_succ]

/-- Witness for C8 on a concrete three-point set with the first point's
neighbour row. -/
theorem tree_query_indices_in_bounds_witness :
    ([1, 2, 3, 3, 3, 3, 3, 3, 3] ∈
        nearest_neighbor_indices [((0 : ℚ), (0 : ℚ)), (3, 0), (0, 4)]
          [((0 : ℚ), (0 : ℚ)), (3, 0), (0, 4)] 10 11) ∧
      nnCoordsLookup [((0 : ℚ), (0 : ℚ)), (3, 0), (0, 4)]
          (validNns ([((0 : ℚ), (0 : ℚ)), (3, 0), (0, 4)] : List (ℚ × ℚ)).length
            [1, 2, 3, 3, 3, 3, 3, 3, 3]) =
        .ok ((validNns ([((0 : ℚ), (0 : ℚ)), (3, 0), (0, 4)] : List (ℚ × ℚ)).length
            [1, 2, 3, 3, 3, 3, 3, 3, 3]).map
          (fun j => ([((0 : ℚ), (0 : ℚ)), (3, 0), (0, 4)] : List (ℚ × ℚ)).getD j (0, 0))) := by
  have hmem : [1, 2, 3, 3, 3, 3, 3, 3, 3] ∈
      nearest_neighbor_indices [((0 : ℚ), (0 : ℚ)), (3, 0), (0, 4)]
        [((0 : ℚ), (0 : ℚ)), (3, 0), (0, 4)] 10 11 := by
    rw [triangle_rows]
    exact List.mem_cons_self _ _
  exact ⟨hmem, (tree_query_indices_in_bounds _ 11 10 _ hmem).2⟩

/-! ### C2: the vertices feature counts neighbours, capped at k - 1 -/

theorem sqDist_self (p : ℚ × ℚ) : sqDist p p = 0 := by
  simp [sqDist]

theorem countP_range_split (n i : ℕ) (hi : i < n) (P Q : ℕ → Bool)
    (hP : P i = true) (hQ : Q i = false) (hPQ : ∀ j, j ≠ i → P j = Q j) :
    (List.range n).countP P = (List.range n).countP Q + 1 := by
  induction n with
  | zero => omega
  | succ n ih =>
    rw [List.range_succ, List.countP_append, List.countP_append]
    rcases Nat.lt_succ_iff_lt_or_eq.mp hi with h | h
    · have hn : P n = Q n := hPQ n (by omega)
      have hs : List.countP P [n] = List.countP Q [n] := by
        simp [List.countP_cons, hn]
      rw [ih h, hs]
      omega
    · subst h
      have hcong : List.countP P (List.range i) = List.countP Q (List.range i) := by
        apply List.countP_congr
        intro a ha
        rw [hPQ a (by have := List.mem_range.mp ha; omega)]
      have h1 : List.countP P [i] = 1 := by simp [List.countP_cons, hP]
      have h2 : List.countP Q [i] = 0 := by simp [List.countP_cons, hQ]
      omega

theorem hits_count (pts : List (ℚ × ℚ)) (i : ℕ) (r : ℚ) (hi : i < pts.length) (hr : 0 < r) :
    ((List.range pts.length).filter (qualifies pts (pts.getD i (0, 0)) r)).length =
      strictWithinCount pts i r + 1 := by
  rw [← List.countP_eq_length_filter]
  unfold strictWithinCount
  rw [← List.countP_eq_length_filter]
  apply countP_range_split pts.length i hi
  · unfold qualifies
    simp [hr, sqDist_self, mul_pos hr hr]
  · simp
  · intro j hj
    unfold qualifies
    simp [hj, Bool.and_assoc]

theorem validNns_replicate (n m : ℕ) : validNns n (List.replicate m n) = [] := by
  induction m with
  | zero => rfl
  | succ m ih =>
    rw [List.replicate_succ]
    unfold validNns at ih ⊢
    rw [List.filter_cons]
    simp [ih]

/-- Amended C2: with a positive search radius and a neighbour cap of at least
one, the `vertices` entry of point `i` equals the number of other points
strictly within the radius, capped at `k - 1`; in particular it never exceeds
`k - 1`. -/
theorem vertices_eq_min_capped (pts : List (ℚ × ℚ)) (r : ℚ) (k i : ℕ)
    (hr : 0 < r) (hk : 1 ≤ k) (hi : i < pts.length) :
    (vertices_of pts pts r k).getD i 0 = min (k - 1) (strictWithinCount pts i r) ∧
      (vertices_of pts pts r k).getD i 0 ≤ k - 1 := by
  have hlen2 : i < (vertices_of pts pts r k).length := by
    simp [vertices_of, nearest_neighbor_indices, hi]
  have hmain : (vertices_of pts pts r k).getD i 0 =
      min (k - 1) (strictWithinCount pts i r) := by
    rw [List.getD_eq_getElem _ _ hlen2]
    unfold vertices_of nearest_neighbor_indices
    rw [List.getElem_map, List.getElem_map]
    have hq : pts[i] = pts.getD i (0, 0) := (List.getD_eq_getElem _ _ hi).symm
    rw [hq]
    -- name the sorted qualifying indices
    have hc : (sortAsc (nearerB pts (pts.getD i (0, 0)))
        ((List.range pts.length).filter (qualifies pts (pts.getD i (0, 0)) r))).length =
        strictWithinCount pts i r + 1 := by
      rw [sortAsc_length]
      exact hits_count pts i r hi hr
    simp only [queryIdx]
    set hits := sortAsc (nearerB pts (pts.getD i (0, 0)))
      ((List.range pts.length).filter (qualifies pts (pts.getD i (0, 0)) r)) with hhits
    have htklen : (hits.take k).length = min k hits.length := List.length_take k hits
    have htkpos : 0 < (hits.take k).length := by
      rw [htklen, hc]
      omega
    obtain ⟨x, t, hxt⟩ := List.exists_cons_of_ne_nil (List.ne_nil_of_length_pos htkpos)
    rw [hxt, List.cons_append, List.drop_one, List.tail_cons]
    unfold validNns
    rw [List.filter_append]
    have hrep : (List.replicate (k - hits.length) pts.length).filter
        (fun j => decide (j ≠ pts.length)) = [] := by
      have := validNns_replicate pts.length (k - hits.length)
      unfold validNns at this
      exact this
    have htfilt : t.filter (fun j => decide (j ≠ pts.length)) = t := by
      apply List.filter_eq_self.mpr
      intro a ha
      have hat : a ∈ hits.take k := by
        rw [hxt]
        exact List.mem_cons_of_mem _ ha
      have hah : a ∈ hits := List.take_subset _ _ hat
      have haf := (sortAsc_mem _ _ _).mp hah
      have : a < pts.length := List.mem_range.mp (List.mem_filter.mp haf).1
      simpa using Nat.ne_of_lt this
    rw [hrep, htfilt, List.append_nil]
    have htlen : t.length = min k hits.length - 1 := by
      have : (hits.take k).length = t.length + 1 := by
        rw [hxt]
        simp
      omega
    rw [htlen, hc]
    omega
  exact ⟨hmain, by rw [hmain]; omega⟩

/-- Witness for the amended C2 on three collinear points with radius 100 and
cap 2. -/
theorem vertices_eq_min_capped_witness :
    (0 : ℚ) < 100 ∧ (1 : ℕ) ≤ 2 ∧
      0 < ([((0 : ℚ), (0 : ℚ)), (0, 1), (0, 2)] : List (ℚ × ℚ)).length ∧
      (vertices_of [((0 : ℚ), (0 : ℚ)), (0, 1), (0, 2)]
          [((0 : ℚ), (0 : ℚ)), (0, 1), (0, 2)] 100 2).getD 0 0 =
        min (2 - 1) (strictWithinCount [((0 : ℚ), (0 : ℚ)), (0, 1), (0, 2)] 0 100) :=
  ⟨by norm_num, by norm_num, by simp,
   (vertices_eq_min_capped [((0 : ℚ), (0 : ℚ)), (0, 1), (0, 2)] 100 2 0
     (by norm_num) (by norm_num) (by simp)).1⟩

/-! ### Loop-body evaluation lemmas -/

theorem nn_body_cases (coords : List (ℚ × ℚ)) (pi0 : ℕ) (nns0 : List ℕ)
    (hpi : pi0 < coords.length)
    (hb : ∀ j ∈ validNns coords.length nns0, j < coords.length) :
    (validNns coords.length nns0 = [] →
      nn_body coords pi0 nns0 =
        .error "ValueError: zero-size array to reduction operation minimum which has no identity") ∧
      (validNns coords.length nns0 ≠ [] →
        ∃ f, nn_body coords pi0 nns0 = .ok f ∧
          f 2 = npMean (angle_increments_literal (row_angles coords pi0 nns0)) ∧
          f 3 = npStd (angle_increments_literal (row_angles coords pi0 nns0)) ∧
          f 5 = ((validNns coords.length nns0).length : ℝ)) := by
  have hlk := nnCoordsLookup_ok coords _ hb
  have hpt : coords.get? pi0 = some (coords.getD pi0 (0, 0)) := by
    rw [List.get?_eq_getElem?, List.getElem?_eq_getElem hpi, List.getD_eq_getElem _ _ hpi]
  constructor
  · intro hnil
    rw [hnil] at hlk
    simp only [nn_body]
    rw [hnil, hlk, hpt]
    rfl
  · intro hne
    obtain ⟨v, vs, hcons⟩ := List.exists_cons_of_ne_nil hne
    rw [hcons] at hlk
    simp only [nn_body, angle_increments_literal, row_angles]
    rw [hcons, hlk, hpt]
    exact ⟨_, rfl, rfl, rfl, rfl⟩

theorem nn_body_fixed_cases (coords : List (ℚ × ℚ)) (pi0 : ℕ) (nns0 : List ℕ)
    (hpi : pi0 < coords.length)
    (hb : ∀ j ∈ validNns coords.length nns0, j < coords.length) :
    (validNns coords.length nns0 = [] →
      nn_body_fixed coords pi0 nns0 =
        .error "ValueError: zero-size array to reduction operation minimum which has no identity") ∧
      (validNns coords.length nns0 ≠ [] →
        ∃ f, nn_body_fixed coords pi0 nns0 = .ok f ∧
          f 2 = npMean (angle_increments_intended (row_angles coords pi0 nns0)) ∧
          f 3 = npStd (angle_increments_intended (row_angles coords pi0 nns0)) ∧
          f 5 = ((validNns coords.length nns0).length : ℝ)) := by
  have hlk := nnCoordsLookup_ok coords _ hb
  have hpt : coords.get? pi0 = some (coords.getD pi0 (0, 0)) := by
    rw [List.get?_eq_getElem?, List.getElem?_eq_getElem hpi, List.getD_eq_getElem _ _ hpi]
  constructor
  · intro hnil
    rw [hnil] at hlk
    simp only [nn_body_fixed]
    rw [hnil, hlk, hpt]
    rfl
  · intro hne
    obtain ⟨v, vs, hcons⟩ := List.exists_cons_of_ne_nil hne
    rw [hcons] at hlk
    simp only [nn_body_fixed, angle_increments_intended, row_angles]
    rw [hcons, hlk, hpt]
    exact ⟨_, rfl, rfl, rfl, rfl⟩

theorem gnf_loop_error_head (coords : List (ℚ × ℚ)) (i : ℕ) (nns : List ℕ)
    (rest : List (List ℕ)) (e : String) (h : nn_body coords i nns = .error e) :
    gnf_loop coords i (nns :: rest) = .error e := by
  unfold gnf_loop
  rw [h]

theorem gnf_loop_fixed_error_head (coords : List (ℚ × ℚ)) (i : ℕ) (nns : List ℕ)
    (rest : List (List ℕ)) (e : String) (h : nn_body_fixed coords i nns = .error e) :
    gnf_loop_fixed coords i (nns :: rest) = .error e := by
  unfold gnf_loop_fixed
  rw [h]

theorem gnf_loop_fixed_cons (coords : List (ℚ × ℚ)) (i : ℕ) (nns : List ℕ)
    (rest : List (List ℕ)) (f : Fin 8 → ℝ) (fs : List (Fin 8 → ℝ))
    (h : nn_body_fixed coords i nns = .ok f)
    (hrest : gnf_loop_fixed coords (i + 1) rest = .ok fs) :
    gnf_loop_fixed coords i (nns :: rest) = .ok (f :: fs) := by
  unfold gnf_loop_fixed
  rw [h, hrest]

theorem gnf_loop_cons (coords : List (ℚ × ℚ)) (i : ℕ) (nns : List ℕ)
    (rest : List (List ℕ)) (f : Fin 8 → ℝ) (fs : List (Fin 8 → ℝ))
    (h : nn_body coords i nns = .ok f)
    (hrest : gnf_loop coords (i + 1) rest = .ok fs) :
    gnf_loop coords i (nns :: rest) = .ok (f :: fs) := by
  unfold gnf_loop
  rw [h, hrest]

theorem valid_indices_lt (coords : List (ℚ × ℚ)) (r : ℚ) (k : ℕ) (nns : List ℕ)
    (hmem : nns ∈ nearest_neighbor_indices coords coords k r) :
    ∀ j ∈ validNns coords.length nns, j < coords.length := by
  unfold nearest_neighbor_indices at hmem
  intro j hjv
  have hjn : j ∈ nns := (List.mem_filter.mp hjv).1
  have hne : j ≠ coords.length := by
    have := (List.mem_filter.mp hjv).2
    simpa using this
  rcases List.mem_map.mp hmem with ⟨qp, hqp, hrow⟩
  have hjd : j ∈ (queryIdx coords qp k r).drop 1 := by
    rw [hrow]
    exact hjn
  have hjq : j ∈ queryIdx coords qp k r := List.drop_subset _ _ hjd
  rcases queryIdx_mem coords qp k r j hjq with h | h
  · exact h
  · exact absurd h hne

theorem gnf_loop_ok (coords : List (ℚ × ℚ)) (rows : List (List ℕ)) (i : ℕ)
    (h : ∀ j nns, rows.get? j = some nns → ∃ f, nn_body coords (i + j) nns = .ok f) :
    ∃ fs, gnf_loop coords i rows = .ok fs ∧ fs.length = rows.length := by
  induction rows generalizing i with
  | nil => exact ⟨[], rfl, rfl⟩
  | cons nns rest ih =>
    obtain ⟨f, hf⟩ := h 0 nns rfl
    obtain ⟨fs, hfs, hlen⟩ := ih (i + 1) (fun j nns2 hj => by
      have h2 := h (j + 1) nns2 (by simpa using hj)
      rwa [show i + (j + 1) = i + 1 + j by omega] at h2)
    have hf0 : nn_body coords i nns = .ok f := by
      rwa [Nat.add_zero] at hf
    exact ⟨f :: fs, gnf_loop_cons coords i nns rest f fs hf0 hfs, by simp [hlen]⟩

/-- Neighbour-index rows of the singleton point set at radius 11 with the
default cap 10: the self match is dropped and only sentinels remain. -/
theorem singleton_rows :
    nearest_neighbor_indices [((0 : ℚ), (0 : ℚ))] [((0 : ℚ), (0 : ℚ))] 10 11 =
      [[1, 1, 1, 1, 1, 1, 1, 1, 1]] := by
  norm_num [nearest_neighbor_indices, queryIdx, sortAsc, insertAsc, nearerB, qualifies,
    sqDist, List.range_succ, List.replicate_succ]

/-- Neighbour-index rows of three collinear points at radius 100 with cap 2. -/
theorem collinear_rows :
    nearest_neighbor_indices [((0 : ℚ), (0 : ℚ)), (0, 1), (0, 2)]
      [((0 : ℚ), (0 : ℚ)), (0, 1), (0, 2)] 2 100 = [[1], [0], [1]] := by
  norm_num [nearest_neighbor_indices, queryIdx, sortAsc, insertAsc, nearerB, qualifies,
    sqDist, List.range_succ, List.replicate_succ]

/-- Neighbour-index rows of the probe point set at radius 2 with the default
cap 10. -/
theorem probe_rows :
    nearest_neighbor_indices probe_points probe_points 10 2 =
      [[1, 2, 3, 4, 4, 4, 4, 4, 4], [0, 2, 4, 4, 4, 4, 4, 4, 4],
        [0, 1, 3, 4, 4, 4, 4, 4, 4], [0, 2, 4, 4, 4, 4, 4, 4, 4]] := by
  norm_num [probe_points, nearest_neighbor_indices, queryIdx, sortAsc, insertAsc, nearerB,
    qualifies, sqDist, List.range_succ, List.replicate_succ]

/-! ### C3: empty input degrades, degenerate input raises -/

/-- C3 counterexample: on the degenerate singleton point set (a point with no
valid neighbour within the search radius) `get_nn_features` raises instead of
degrading gracefully. -/
theorem gnf_degenerate_raises :
    get_nn_features [((0 : ℚ), (0 : ℚ))] [((0 : ℚ), (0 : ℚ))] 11 10 =
      .error "ValueError: zero-size array to reduction operation minimum which has no identity" := by
  unfold get_nn_features
  rw [singleton_rows]
  apply gnf_loop_error_head
  apply (nn_body_cases _ 0 _ (by simp) (by decide)).1
  decide

/-- C3 amended: the empty point set does return the empty (0 × 8) feature
array, and a point with no valid neighbour within the search radius raises
`ValueError` (minimum of an empty angle array) rather than degrading
gracefully — in the literal code and under the intended `np.append` reading
alike; when every point has at least one valid neighbour the call completes
and returns one feature row per point. -/
theorem gnf_empty_and_degenerate :
    (∀ treePts : List (ℚ × ℚ), ∀ r : ℚ, ∀ k : ℕ, get_nn_features treePts [] r k = .ok []) ∧
      get_nn_features [((0 : ℚ), (0 : ℚ))] [((0 : ℚ), (0 : ℚ))] 11 10 =
        .error "ValueError: zero-size array to reduction operation minimum which has no identity" ∧
      get_nn_features_fixed [((0 : ℚ), (0 : ℚ))] [((0 : ℚ), (0 : ℚ))] 11 10 =
        .error "ValueError: zero-size array to reduction operation minimum which has no identity" ∧
      ∀ (pts : List (ℚ × ℚ)) (r : ℚ) (k : ℕ),
        (∀ nns ∈ nearest_neighbor_indices pts pts k r, validNns pts.length nns ≠ []) →
        ∃ fs, get_nn_features pts pts r k = .ok fs ∧ fs.length = pts.length := by
  refine ⟨fun _ _ _ => rfl, ?_, ?_, ?_⟩
  · unfold get_nn_features
    rw [singleton_rows]
    apply gnf_loop_error_head
    apply (nn_body_cases _ 0 _ (by simp) (by decide)).1
    decide
  · unfold get_nn_features_fixed
    rw [singleton_rows]
    apply gnf_loop_fixed_error_head
    apply (nn_body_fixed_cases _ 0 _ (by simp) (by decide)).1
    decide
  · intro pts r k hall
    have hbody : ∀ j nns, (nearest_neighbor_indices pts pts k r).get? j = some nns →
        ∃ f, nn_body pts (0 + j) nns = .ok f := by
      intro j nns hj
      have hmem : nns ∈ nearest_neighbor_indices pts pts k r := List.get?_mem hj
      have hb := valid_indices_lt pts r k nns hmem
      have hlt : j < pts.length := by
        obtain ⟨hjl, _⟩ := List.get?_eq_some.mp hj
        simpa [nearest_neighbor_indices] using hjl
      obtain ⟨f, hf, _, _, _⟩ :=
        (nn_body_cases pts (0 + j) nns (by simpa using hlt) hb).2 (hall nns hmem)
      exact ⟨f, hf⟩
    obtain ⟨fs, hfs, hlen⟩ := gnf_loop_ok pts (nearest_neighbor_indices pts pts k r) 0 hbody
    refine ⟨fs, hfs, ?_⟩
    rw [hlen]
    simp [nearest_neighbor_indices]

/-- Witness for C3 discharging the graceful-completion hypothesis on the
probe point set, where every point has at least one valid neighbour. -/
theorem gnf_empty_and_degenerate_witness :
    (∀ nns ∈ nearest_neighbor_indices probe_points probe_points 10 2,
        validNns probe_points.length nns ≠ []) ∧
      ∃ fs, get_nn_features probe_points probe_points 2 10 = .ok fs ∧
        fs.length = probe_points.length := by
  have hall : ∀ nns ∈ nearest_neighbor_indices probe_points probe_points 10 2,
      validNns probe_points.length nns ≠ [] := by
    rw [probe_rows]
    decide
  exact ⟨hall, gnf_empty_and_degenerate.2.2.2 probe_points 2 10 hall⟩

/-! ### C2 counterexample: the cap at k - 1 breaks the claimed equality -/

/-- C2 counterexample: on three collinear points with radius 100 and cap
`k = 2`, the feature row of point 0 produced by the (intent-fixed)
`get_nn_features` carries `vertices = 1` while the number of neighbours
strictly within the radius is 2, refuting the claimed equality. -/
theorem vertices_entry_caps_below_strict_count :
    ∃ fs f, get_nn_features_fixed [((0 : ℚ), (0 : ℚ)), (0, 1), (0, 2)]
        [((0 : ℚ), (0 : ℚ)), (0, 1), (0, 2)] 100 2 = .ok fs ∧
      fs.get? 0 = some f ∧ f 5 = ((1 : ℕ) : ℝ) ∧
      strictWithinCount [((0 : ℚ), (0 : ℚ)), (0, 1), (0, 2)] 0 100 = 2 ∧
      ((1 : ℕ) : ℝ) ≠ ((2 : ℕ) : ℝ) := by
  obtain ⟨f0, hf0, hf02, hf03, hf05⟩ :=
    (nn_body_fixed_cases [((0 : ℚ), (0 : ℚ)), (0, 1), (0, 2)] 0 [1]
      (by simp) (by decide)).2 (by decide)
  obtain ⟨f1, hf1, hf12, hf13, hf15⟩ :=
    (nn_body_fixed_cases [((0 : ℚ), (0 : ℚ)), (0, 1), (0, 2)] 1 [0]
      (by simp) (by decide)).2 (by decide)
  obtain ⟨f2, hf2, hf22, hf23, hf25⟩ :=
    (nn_body_fixed_cases [((0 : ℚ), (0 : ℚ)), (0, 1), (0, 2)] 2 [1]
      (by simp) (by decide)).2 (by decide)
  have hloop : gnf_loop_fixed [((0 : ℚ), (0 : ℚ)), (0, 1), (0, 2)] 0 [[1], [0], [1]] =
      .ok [f0, f1, f2] :=
    gnf_loop_fixed_cons _ _ _ _ _ _ hf0
      (gnf_loop_fixed_cons _ _ _ _ _ _ hf1
        (gnf_loop_fixed_cons _ _ _ _ _ _ hf2 rfl))
  refine ⟨[f0, f1, f2], f0, ?_, rfl, ?_, ?_, ?_⟩
  · unfold get_nn_features_fixed
    rw [collinear_rows]
    exact hloop
  · rw [hf05]
    norm_num [validNns]
  · norm_num [strictWithinCount, sqDist, List.range_succ]
  · norm_num

/-! ### C1: angular increments, intent vs literal code -/

theorem listMinD_le (l : List ℝ) (x : ℝ) (hx : x ∈ l) : listMinD l ≤ x := by
  cases l with
  | nil => cases hx
  | cons a as =>
    rcases List.mem_cons.mp hx with rfl | hx
    · exact (foldl_min_le as x).1
    · exact (foldl_min_le as a).2 x hx

theorem listMinD_mem (l : List ℝ) (h : l ≠ []) : listMinD l ∈ l := by
  cases l with
  | nil => exact absurd rfl h
  | cons a as => exact foldl_min_mem as a

theorem sortR_perm (xs : List ℝ) : (sortR xs).Perm xs :=
  List.perm_insertionSort _ _

theorem sortR_sorted (xs : List ℝ) : List.Sorted (fun a b : ℝ => a ≤ b) (sortR xs) :=
  List.sorted_insertionSort _ _

theorem npDiff_cons (x y : ℝ) (l : List ℝ) :
    npDiff (x :: y :: l) = (y - x) :: npDiff (y :: l) := by
  simp [npDiff]

theorem npDiff_single (x : ℝ) : npDiff [x] = [] := by
  simp [npDiff]

theorem getLastD_irrel (l : List ℝ) (a b : ℝ) (h : l ≠ []) : l.getLastD a = l.getLastD b := by
  cases l with
  | nil => exact absurd rfl h
  | cons x xs => rw [List.getLastD_cons, List.getLastD_cons]

theorem getLastD_cons_cons (x y : ℝ) (l : List ℝ) (d : ℝ) :
    (x :: y :: l).getLastD d = (y :: l).getLastD d := by
  conv_lhs => rw [List.getLastD_cons]
  exact getLastD_irrel _ x d (by simp)

theorem npDiff_sum (xs : List ℝ) : (npDiff xs).sum = xs.getLastD 0 - xs.headD 0 := by
  induction xs with
  | nil => simp [npDiff]
  | cons x xs ih =>
    cases xs with
    | nil => simp [npDiff]
    | cons y ys =>
      rw [npDiff_cons, List.sum_cons, ih, getLastD_cons_cons x y ys 0]
      simp only [List.headD_cons]
      ring

theorem npMean_replicate (n : ℕ) (hn : n ≠ 0) (x : ℝ) : npMean (List.replicate n x) = x := by
  unfold npMean
  rw [List.sum_replicate, List.length_replicate, nsmul_eq_mul]
  exact mul_div_cancel_left₀ x (Nat.cast_ne_zero.mpr hn)

theorem npStd_replicate (n : ℕ) (hn : n ≠ 0) (x : ℝ) : npStd (List.replicate n x) = 0 := by
  unfold npStd
  rw [npMean_replicate n hn x, List.map_replicate]
  have hz : (x - x) * (x - x) = 0 := by ring
  rw [hz, npMean_replicate n hn 0, Real.sqrt_zero]

/-- Telescoping: with the intended `np.append`, the angular increments of any
nonempty angle list sum to exactly `2π`. -/
theorem angle_increments_sum (angles : List ℝ) (h : angles ≠ []) :
    (angle_increments_intended angles).sum = 2 * Real.pi := by
  unfold angle_increments_intended
  rw [npDiff_sum]
  have hsne : sortR angles ≠ [] := by
    intro hnil
    have hlen := (sortR_perm angles).length_eq
    rw [hnil] at hlen
    exact h (List.length_eq_zero.mp hlen.symm)
  obtain ⟨c, cs, hcons⟩ := List.exists_cons_of_ne_nil hsne
  have h1 : (sortR angles ++ [listMinD angles + 2 * Real.pi]).getLastD 0 =
      listMinD angles + 2 * Real.pi := by
    rw [List.getLastD_concat]
  have h2 : (sortR angles ++ [listMinD angles + 2 * Real.pi]).headD 0 = c := by
    rw [hcons]
    rfl
  have hc : c = listMinD angles := by
    apply le_antisymm
    · have hm : listMinD angles ∈ sortR angles :=
        (sortR_perm angles).mem_iff.mpr (listMinD_mem angles h)
      rw [hcons] at hm
      rcases List.mem_cons.mp hm with heq | hmm
      · exact le_of_eq heq.symm
      · have hs := sortR_sorted angles
        rw [hcons] at hs
        exact (List.sorted_cons.mp hs).1 _ hmm
    · have hcmem : c ∈ angles := (sortR_perm angles).subset
        (by rw [hcons]; exact List.mem_cons_self _ _)
      exact listMinD_le angles c hcmem
  rw [h1, h2, hc]
  ring

theorem hex_ne_nil : hexAngles ≠ [] := by
  unfold hexAngles
  simp

theorem hex_sorted : sortR hexAngles = hexAngles := by
  apply List.Sorted.insertionSort_eq
  have hp : (0 : ℝ) < Real.pi := Real.pi_pos
  simp only [hexAngles, List.sorted_cons, List.mem_cons, List.mem_singleton,
    List.not_mem_nil, List.sorted_nil, and_true, or_false, forall_eq_or_imp, forall_eq]
  norm_num
  repeat' constructor
  all_goals linarith

theorem hex_min : listMinD hexAngles = 0 := by
  have hp : (0 : ℝ) < Real.pi := Real.pi_pos
  unfold hexAngles
  apply le_antisymm
  · exact listMinD_le _ 0 (by simp)
  · have hm := listMinD_mem
      [0, Real.pi / 3, 2 * Real.pi / 3, Real.pi, 4 * Real.pi / 3, 5 * Real.pi / 3] (by simp)
    simp only [List.mem_cons, List.not_mem_nil, or_false] at hm
    rcases hm with h | h | h | h | h | h <;> rw [h] <;> linarith

theorem hex_increments :
    angle_increments_intended hexAngles = List.replicate 6 (Real.pi / 3) := by
  unfold angle_increments_intended
  rw [hex_sorted, hex_min]
  have hrep : List.replicate 6 (Real.pi / 3) =
      [Real.pi / 3, Real.pi / 3, Real.pi / 3, Real.pi / 3, Real.pi / 3, Real.pi / 3] := rfl
  rw [hrep]
  unfold hexAngles
  simp only [List.cons_append, List.nil_append]
  rw [npDiff_cons, npDiff_cons, npDiff_cons, npDiff_cons, npDiff_cons, npDiff_cons,
    npDiff_single]
  simp only [List.cons.injEq, and_true]
  refine ⟨?_, ?_, ?_, ?_, ?_, ?_⟩ <;> ring

theorem hex_mean : npMean (angle_increments_intended hexAngles) = Real.pi / 3 := by
  rw [hex_increments]
  exact npMean_replicate 6 (by norm_num) _

theorem hex_std : npStd (angle_increments_intended hexAngles) = 0 := by
  rw [hex_increments]
  exact npStd_replicate 6 (by norm_num) _

theorem hex_sum : (angle_increments_intended hexAngles).sum = 2 * Real.pi := by
  rw [hex_increments, List.sum_replicate, nsmul_eq_mul]
  push_cast
  ring

theorem mod2pi_eq_self (t : ℝ) (h0 : 0 ≤ t) (h1 : t < 2 * Real.pi) : mod2pi t = t := by
  unfold mod2pi
  have h2 : (0 : ℝ) < 2 * Real.pi := by linarith [Real.pi_pos]
  have hf : ⌊t / (2 * Real.pi)⌋ = 0 := by
    rw [Int.floor_eq_zero_iff]
    refine Set.mem_Ico.mpr ⟨?_, ?_⟩
    · exact div_nonneg h0 h2.le
    · exact (div_lt_one h2).mpr h1
  rw [hf]
  simp

theorem mod2pi_zero : mod2pi 0 = 0 :=
  mod2pi_eq_self 0 le_rfl (by linarith [Real.pi_pos])

theorem mod2pi_half_pi : mod2pi (Real.pi / 2) = Real.pi / 2 :=
  mod2pi_eq_self _ (by linarith [Real.pi_pos]) (by linarith [Real.pi_pos])

theorem mod2pi_pi : mod2pi Real.pi = Real.pi :=
  mod2pi_eq_self _ (by linarith [Real.pi_pos]) (by linarith [Real.pi_pos])

theorem atan2_zero_one : atan2 0 1 = 0 := by
  unfold atan2
  have h1 : (⟨1, 0⟩ : ℂ) = 1 := by
    apply Complex.ext <;> simp
  rw [h1, Complex.arg_one]

theorem atan2_one_zero : atan2 1 0 = Real.pi / 2 := by
  unfold atan2
  have h1 : (⟨0, 1⟩ : ℂ) = Complex.I := by
    apply Complex.ext <;> simp
  rw [h1, Complex.arg_I]

theorem atan2_zero_neg_one : atan2 0 (-1) = Real.pi := by
  unfold atan2
  have h1 : (⟨-1, 0⟩ : ℂ) = -1 := by
    apply Complex.ext <;> simp
  rw [h1, Complex.arg_neg_one]

theorem probe_angles_sorted :
    sortR [0, Real.pi / 2, Real.pi] = [0, Real.pi / 2, Real.pi] := by
  apply List.Sorted.insertionSort_eq
  have hp : (0 : ℝ) < Real.pi := Real.pi_pos
  simp only [List.sorted_cons, List.mem_cons, List.mem_singleton,
    List.not_mem_nil, List.sorted_nil, and_true, or_false, forall_eq_or_imp, forall_eq]
  norm_num
  repeat' constructor
  all_goals linarith

theorem probe_angles_min : listMinD [0, Real.pi / 2, Real.pi] = 0 := by
  have hp : (0 : ℝ) < Real.pi := Real.pi_pos
  apply le_antisymm
  · exact listMinD_le _ 0 (by simp)
  · have hm := listMinD_mem [0, Real.pi / 2, Real.pi] (by simp)
    simp only [List.mem_cons, List.not_mem_nil, or_false] at hm
    rcases hm with h | h | h <;> rw [h] <;> linarith

theorem probe_row0_angles :
    row_angles probe_points 0 [1, 2, 3, 4, 4, 4, 4, 4, 4] = [0, Real.pi / 2, Real.pi] := by
  unfold row_angles probe_points
  have hv : validNns ([((0 : ℚ), (0 : ℚ)), (1, 0), (0, 1), (-1, 0)] : List (ℚ × ℚ)).length
      [1, 2, 3, 4, 4, 4, 4, 4, 4] = [1, 2, 3] := by decide
  rw [hv]
  norm_num
  rw [atan2_zero_one, atan2_one_zero, atan2_zero_neg_one, mod2pi_zero, mod2pi_half_pi,
    mod2pi_pi]
  exact ⟨rfl, rfl, rfl⟩

theorem probe_lit_increments :
    angle_increments_literal [0, Real.pi / 2, Real.pi] = [Real.pi / 2, Real.pi / 2] := by
  unfold angle_increments_literal npArrayWithDtype
  rw [probe_angles_sorted, npDiff_cons, npDiff_cons, npDiff_single]
  simp only [List.cons.injEq, and_true]
  refine ⟨by ring, by ring⟩

theorem probe_int_increments :
    angle_increments_intended [0, Real.pi / 2, Real.pi] =
      [Real.pi / 2, Real.pi / 2, Real.pi] := by
  unfold angle_increments_intended
  rw [probe_angles_sorted, probe_angles_min]
  simp only [List.cons_append, List.nil_append]
  rw [npDiff_cons, npDiff_cons, npDiff_cons, npDiff_single]
  simp only [List.cons.injEq, and_true]
  refine ⟨by ring, by ring, by ring⟩

theorem probe_lit_mean : npMean [Real.pi / 2, Real.pi / 2] = Real.pi / 2 := by
  unfold npMean
  norm_num

theorem probe_int_mean :
    npMean [Real.pi / 2, Real.pi / 2, Real.pi] = 2 * Real.pi / 3 := by
  unfold npMean
  norm_num
  ring

theorem hex_lit_increments :
    angle_increments_literal hexAngles = List.replicate 5 (Real.pi / 3) := by
  unfold angle_increments_literal npArrayWithDtype
  rw [hex_sorted]
  have hrep : List.replicate 5 (Real.pi / 3) =
      [Real.pi / 3, Real.pi / 3, Real.pi / 3, Real.pi / 3, Real.pi / 3] := rfl
  rw [hrep]
  unfold hexAngles
  rw [npDiff_cons, npDiff_cons, npDiff_cons, npDiff_cons, npDiff_cons, npDiff_single]
  simp only [List.cons.injEq, and_true]
  refine ⟨by ring, by ring, by ring, by ring, by ring⟩

theorem hex_lit_mean : npMean (angle_increments_literal hexAngles) = Real.pi / 3 := by
  rw [hex_lit_increments]
  exact npMean_replicate 5 (by norm_num) _

theorem hex_lit_std : npStd (angle_increments_literal hexAngles) = 0 := by
  rw [hex_lit_increments]
  exact npStd_replicate 5 (by norm_num) _

theorem hex_lit_sum : (angle_increments_literal hexAngles).sum = 5 * Real.pi / 3 := by
  rw [hex_lit_increments, List.sum_replicate, nsmul_eq_mul]
  push_cast
  ring

theorem half_pi_ne_two_thirds_pi : Real.pi / 2 ≠ 2 * Real.pi / 3 := by
  intro h
  have hp := Real.pi_pos
  linarith

theorem five_thirds_pi_ne_two_pi : 5 * Real.pi / 3 ≠ 2 * Real.pi := by
  intro h
  have hp := Real.pi_pos
  linarith

/-- C1 (code-bug evidence): the slipped line
`sorted_angles = np.array(np.sort(angles), angles.min()+2*np.pi)` consumes
the `np.float64` scalar as the dtype, so the executed code takes increments
over the sorted angles without the wraparound element its inline comment
announces: on the probe point set the mean-increment feature of the centre is
90° where the intended `np.append` computation gives 120°; for the synthetic
hexagonal ring at angles 0°, 60°, ..., 300° the code's increments are five
steps of 60° (mean 60°, standard deviation 0°) summing to `5π/3` rather than
`2π`, while the intended computation gives six steps of 60° summing to `2π`,
and for every nonempty angle list the intended increments sum to exactly
`2π`. -/
theorem angular_increments_claim :
    (∃ fs f, get_nn_features probe_points probe_points 2 10 = .ok fs ∧
        fs.get? 0 = some f ∧ f 2 = Real.pi / 2) ∧
      (∃ fs f, get_nn_features_fixed probe_points probe_points 2 10 = .ok fs ∧
        fs.get? 0 = some f ∧ f 2 = 2 * Real.pi / 3) ∧
      Real.pi / 2 ≠ 2 * Real.pi / 3 ∧
      angle_increments_literal hexAngles = List.replicate 5 (Real.pi / 3) ∧
      npMean (angle_increments_literal hexAngles) = Real.pi / 3 ∧
      npStd (angle_increments_literal hexAngles) = 0 ∧
      (angle_increments_literal hexAngles).sum = 5 * Real.pi / 3 ∧
      5 * Real.pi / 3 ≠ 2 * Real.pi ∧
      angle_increments_intended hexAngles = List.replicate 6 (Real.pi / 3) ∧
      npMean (angle_increments_intended hexAngles) = Real.pi / 3 ∧
      npStd (angle_increments_intended hexAngles) = 0 ∧
      (angle_increments_intended hexAngles).sum = 2 * Real.pi ∧
      ∀ angles : List ℝ, angles ≠ [] →
        (angle_increments_intended angles).sum = 2 * Real.pi := by
  refine ⟨?_, ?_, half_pi_ne_two_thirds_pi, hex_lit_increments, hex_lit_mean, hex_lit_std,
    hex_lit_sum, five_thirds_pi_ne_two_pi, hex_increments, hex_mean, hex_std, hex_sum,
    angle_increments_sum⟩
  · obtain ⟨f0, hf0, hf02, hf03, hf05⟩ :=
      (nn_body_cases probe_points 0 [1, 2, 3, 4, 4, 4, 4, 4, 4] (by simp [probe_points])
        (by decide)).2 (by decide)
    obtain ⟨f1, hf1, hf12, hf13, hf15⟩ :=
      (nn_body_cases probe_points 1 [0, 2, 4, 4, 4, 4, 4, 4, 4] (by simp [probe_points])
        (by decide)).2 (by decide)
    obtain ⟨f2, hf2, hf22, hf23, hf25⟩ :=
      (nn_body_cases probe_points 2 [0, 1, 3, 4, 4, 4, 4, 4, 4] (by simp [probe_points])
        (by decide)).2 (by decide)
    obtain ⟨f3, hf3, hf32, hf33, hf35⟩ :=
      (nn_body_cases probe_points 3 [0, 2, 4, 4, 4, 4, 4, 4, 4] (by simp [probe_points])
        (by decide)).2 (by decide)
    have hloop : gnf_loop probe_points 0
        [[1, 2, 3, 4, 4, 4, 4, 4, 4], [0, 2, 4, 4, 4, 4, 4, 4, 4],
          [0, 1, 3, 4, 4, 4, 4, 4, 4], [0, 2, 4, 4, 4, 4, 4, 4, 4]] = .ok [f0, f1, f2, f3] :=
      gnf_loop_cons _ 0 _ _ _ _ hf0
        (gnf_loop_cons _ 1 _ _ _ _ hf1
          (gnf_loop_cons _ 2 _ _ _ _ hf2
            (gnf_loop_cons _ 3 _ _ _ _ hf3 rfl)))
    refine ⟨[f0, f1, f2, f3], f0, ?_, rfl, ?_⟩
    · unfold get_nn_features
      rw [probe_rows]
      exact hloop
    · rw [hf02, probe_row0_angles, probe_lit_increments]
      exact probe_lit_mean
  · obtain ⟨f0, hf0, hf02, hf03, hf05⟩ :=
      (nn_body_fixed_cases probe_points 0 [1, 2, 3, 4, 4, 4, 4, 4, 4] (by simp [probe_points])
        (by decide)).2 (by decide)
    obtain ⟨f1, hf1, hf12, hf13, hf15⟩ :=
      (nn_body_fixed_cases probe_points 1 [0, 2, 4, 4, 4, 4, 4, 4, 4] (by simp [probe_points])
        (by decide)).2 (by decide)
    obtain ⟨f2, hf2, hf22, hf23, hf25⟩ :=
      (nn_body_fixed_cases probe_points 2 [0, 1, 3, 4, 4, 4, 4, 4, 4] (by simp [probe_points])
        (by decide)).2 (by decide)
    obtain ⟨f3, hf3, hf32, hf33, hf35⟩ :=
      (nn_body_fixed_cases probe_points 3 [0, 2, 4, 4, 4, 4, 4, 4, 4] (by simp [probe_points])
        (by decide)).2 (by decide)
    have hloop : gnf_loop_fixed probe_points 0
        [[1, 2, 3, 4, 4, 4, 4, 4, 4], [0, 2, 4, 4, 4, 4, 4, 4, 4],
          [0, 1, 3, 4, 4, 4, 4, 4, 4], [0, 2, 4, 4, 4, 4, 4, 4, 4]] = .ok [f0, f1, f2, f3] :=
      gnf_loop_fixed_cons _ 0 _ _ _ _ hf0
        (gnf_loop_fixed_cons _ 1 _ _ _ _ hf1
          (gnf_loop_fixed_cons _ 2 _ _ _ _ hf2
            (gnf_loop_fixed_cons _ 3 _ _ _ _ hf3 rfl)))
    refine ⟨[f0, f1, f2, f3], f0, ?_, rfl, ?_⟩
    · unfold get_nn_features_fixed
      rw [probe_rows]
      exact hloop
    · rw [hf02, probe_row0_angles, probe_int_increments]
      exact probe_int_mean

/-- Witness for C1 applying the telescoping conjunct at the concrete
hexagonal angle list. -/
theorem angular_increments_claim_witness :
    hexAngles ≠ [] ∧ (angle_increments_intended hexAngles).sum = 2 * Real.pi :=
  ⟨hex_ne_nil,
   angular_increments_claim.2.2.2.2.2.2.2.2.2.2.2.2 hexAngles hex_ne_nil⟩

/-! ### C7 and C9: pixel-wise label propagation -/

theorem foldl_argmin_mem (g : ℕ → ℚ) (js : List ℕ) (j : ℕ) :
    js.foldl (fun b a => if g a < g b then a else b) j ∈ j :: js := by
  induction js generalizing j with
  | nil => simp
  | cons y ys ih =>
    rw [List.foldl_cons]
    by_cases hc : g y < g j
    · rw [if_pos hc]
      have h := ih y
      rcases List.mem_cons.mp h with h | h
      · rw [h]; simp
      · simp [h]
    · rw [if_neg hc]
      have h := ih j
      rcases List.mem_cons.mp h with h | h
      · rw [h]; simp
      · simp [h]

theorem foldl_argmin_le (g : ℕ → ℚ) (js : List ℕ) (j : ℕ) :
    ∀ a ∈ j :: js, g (js.foldl (fun b a => if g a < g b then a else b) j) ≤ g a := by
  induction js generalizing j with
  | nil =>
    intro a ha
    rcases List.mem_cons.mp ha with rfl | h
    · simp
    · cases h
  | cons y ys ih =>
    intro a ha
    rw [List.foldl_cons]
    by_cases hc : g y < g j
    · rw [if_pos hc]
      rcases List.mem_cons.mp ha with rfl | ha2
      · exact le_trans (ih y y (List.mem_cons_self _ _)) (le_of_lt hc)
      · rcases List.mem_cons.mp ha2 with rfl | ha3
        · exact ih a a (List.mem_cons_self _ _)
        · exact ih y a (List.mem_cons_of_mem _ ha3)
    · rw [if_neg hc]
      rcases List.mem_cons.mp ha with rfl | ha2
      · exact ih a a (List.mem_cons_self _ _)
      · rcases List.mem_cons.mp ha2 with rfl | ha3
        · exact le_trans (ih j j (List.mem_cons_self _ _)) (le_of_not_lt hc)
        · exact ih j a (List.mem_cons_of_mem _ ha3)

theorem nearest_point_idx_lt (pts : List (ℚ × ℚ)) (q : ℚ × ℚ) (h : pts ≠ []) :
    nearest_point_idx pts q < pts.length := by
  unfold nearest_point_idx
  have hn : pts.length ≠ 0 := fun h0 => h (List.length_eq_zero.mp h0)
  obtain ⟨n, hn2⟩ := Nat.exists_eq_succ_of_ne_zero hn
  rw [hn2, List.range_succ_eq_map]
  have hmem := foldl_argmin_mem (fun a => sqDist (pts.getD a (0, 0)) q)
    ((List.range n).map Nat.succ) 0
  rw [← List.range_succ_eq_map] at hmem
  exact List.mem_range.mp hmem

theorem nearest_point_idx_min (pts : List (ℚ × ℚ)) (q : ℚ × ℚ) (j : ℕ)
    (hj : j < pts.length) :
    sqDist (pts.getD (nearest_point_idx pts q) (0, 0)) q ≤ sqDist (pts.getD j (0, 0)) q := by
  unfold nearest_point_idx
  have hn : pts.length ≠ 0 := by omega
  obtain ⟨n, hn2⟩ := Nat.exists_eq_succ_of_ne_zero hn
  rw [hn2, List.range_succ_eq_map]
  apply foldl_argmin_le (fun a => sqDist (pts.getD a (0, 0)) q) ((List.range n).map Nat.succ) 0
  rw [← List.range_succ_eq_map]
  exact List.mem_range.mpr (by omega)

theorem mgrid_length (h w : ℕ) : (mgrid_coords h w).length = h * w := by
  unfold mgrid_coords
  rw [List.length_flatMap]
  have hconst : ∀ l : List ℕ, (l.map (fun _ : ℕ => w)).sum = l.length * w := by
    intro l
    induction l with
    | nil => simp
    | cons a l2 ih =>
      rw [List.map_cons, List.sum_cons, ih]
      simp
      ring
  have hmap : (List.range h).map (List.length ∘ fun (y : ℕ) => (List.range w).map
      (fun (x : ℕ) => ((x : ℚ), (y : ℚ)))) = (List.range h).map (fun _ => w) := by
    apply List.map_congr_left
    intro y hy
    simp
  rw [hmap, hconst, List.length_range]

theorem lookupLabels_ok (labels : List ℤ) (l : List ℕ)
    (h : ∀ i ∈ l, i < labels.length) :
    lookupLabels labels l = .ok (l.map (fun i => labels.getD i 0)) := by
  induction l with
  | nil => rfl
  | cons i rest ih =>
    have hi := h i (List.mem_cons_self _ _)
    have hg : labels.get? i = some (labels.getD i 0) := by
      rw [List.get?_eq_getElem?, List.getElem?_eq_getElem hi, List.getD_eq_getElem _ _ hi]
    have hr := ih (fun x hx => h x (List.mem_cons_of_mem _ hx))
    unfold lookupLabels
    rw [hg, hr]
    rfl

theorem flatMap_window (g : ℕ → List ℤ) (w : ℕ) (hg : ∀ y, (g y).length = w)
    (ys : List ℕ) (i : ℕ) (hi : i < ys.length) :
    ((ys.flatMap g).drop (i * w)).take w = g (ys.getD i 0) := by
  induction ys generalizing i with
  | nil => simp at hi
  | cons y ys ih =>
    rw [List.flatMap_cons]
    cases i with
    | zero =>
      simp only [Nat.zero_mul, List.drop_zero, List.getD_cons_zero]
      rw [← hg y]
      exact List.take_left _ _
    | succ i2 =>
      have hw2 : (i2 + 1) * w = (g y).length + i2 * w := by
        rw [hg y]
        ring
      rw [hw2, List.drop_append, List.getD_cons_succ]
      exact ih i2 (by simpa using hi)

theorem reshape2_flatMap (g : ℕ → List ℤ) (h w : ℕ) (hg : ∀ y, (g y).length = w) :
    reshape2 ((List.range h).flatMap g) h w = (List.range h).map g := by
  unfold reshape2
  apply List.map_congr_left
  intro y hy
  have hyy : y < h := List.mem_range.mp hy
  have hwin := flatMap_window g w hg (List.range h) y (by simpa using hyy)
  rw [List.getD_eq_getElem _ _ (by simpa using hyy), List.getElem_range] at hwin
  exact hwin

/-- C7: with at least one interior point and one label per interior point,
label propagation produces a label image with exactly the sub-image's pixel
dimensions in which every pixel `(x, y)` carries the label of its nearest
interior point; the chosen point attains the minimum distance over all
interior points. -/
theorem label_propagation_correct (pts : List (ℚ × ℚ)) (labels : List ℤ) (h w : ℕ)
    (hne : pts ≠ []) (hlen : labels.length = pts.length) :
    labeled_image pts labels h w =
        .ok ((List.range h).map (fun (y : ℕ) => (List.range w).map
          (fun (x : ℕ) => labels.getD (nearest_point_idx pts ((x : ℚ), (y : ℚ))) 0))) ∧
      (∀ img, labeled_image pts labels h w = .ok img →
        img.length = h ∧ ∀ row ∈ img, row.length = w) ∧
      (∀ q : ℚ × ℚ, ∀ j, j < pts.length →
        sqDist (pts.getD (nearest_point_idx pts q) (0, 0)) q ≤
          sqDist (pts.getD j (0, 0)) q) := by
  have hmain : labeled_image pts labels h w =
      .ok ((List.range h).map (fun (y : ℕ) => (List.range w).map
        (fun (x : ℕ) => labels.getD (nearest_point_idx pts ((x : ℚ), (y : ℚ))) 0))) := by
    unfold labeled_image
    have hidx : ∀ i ∈ (mgrid_coords h w).map (nearest_point_idx pts), i < labels.length := by
      intro i hi
      rcases List.mem_map.mp hi with ⟨qq, hqq, rfl⟩
      rw [hlen]
      exact nearest_point_idx_lt pts qq hne
    have hflat : (mgrid_coords h w).map
        ((fun i => labels.getD i 0) ∘ nearest_point_idx pts) =
        (List.range h).flatMap (fun (y : ℕ) => (List.range w).map
          (fun (x : ℕ) => labels.getD (nearest_point_idx pts ((x : ℚ), (y : ℚ))) 0)) := by
      unfold mgrid_coords
      rw [List.map_flatMap]
      simp only [List.map_map]
      rfl
    simp only [lookupLabels_ok labels _ hidx]
    rw [List.map_map, hflat, reshape2_flatMap _ h w (fun y => by simp)]
  refine ⟨hmain, ?_, ?_⟩
  · intro img himg
    rw [hmain] at himg
    simp only [Except.ok.injEq] at himg
    subst himg
    constructor
    · simp
    · intro row hrow
      rcases List.mem_map.mp hrow with ⟨y, hy, rfl⟩
      simp
  · intro q j hj
    exact nearest_point_idx_min pts q j hj

/-- Witness for C7 on two interior points with labels 4 and 7 over a 2 by 2
pixel grid. -/
theorem label_propagation_correct_witness :
    ([((0 : ℚ), (0 : ℚ)), (5, 5)] : List (ℚ × ℚ)) ≠ [] ∧
      ([4, 7] : List ℤ).length = ([((0 : ℚ), (0 : ℚ)), (5, 5)] : List (ℚ × ℚ)).length ∧
      labeled_image [((0 : ℚ), (0 : ℚ)), (5, 5)] [4, 7] 2 2 =
        .ok ((List.range 2).map (fun (y : ℕ) => (List.range 2).map
          (fun (x : ℕ) => ([4, 7] : List ℤ).getD
            (nearest_point_idx [((0 : ℚ), (0 : ℚ)), (5, 5)] ((x : ℚ), (y : ℚ))) 0))) :=
  ⟨by simp, rfl, (label_propagation_correct [((0 : ℚ), (0 : ℚ)), (5, 5)] [4, 7] 2 2
    (by simp) rfl).1⟩

/-- C9: label propagation presupposes a nonempty interior set: with at least
one interior point and a label vector of matching length every pixel receives
a label, while with zero interior points the label lookup is out of bounds
and the stage fails with an `IndexError`. -/
theorem label_propagation_empty_interior (pts : List (ℚ × ℚ)) (labels : List ℤ) (h w : ℕ) :
    (pts ≠ [] → labels.length = pts.length →
      ∃ img, labeled_image pts labels h w = .ok img) ∧
      (0 < h → 0 < w →
        labeled_image [] [] h w = .error "IndexError: index out of bounds for axis 0") := by
  constructor
  · intro hne hlen
    unfold labeled_image
    have hidx : ∀ i ∈ (mgrid_coords h w).map (nearest_point_idx pts), i < labels.length := by
      intro i hi
      rcases List.mem_map.mp hi with ⟨qq, hqq, rfl⟩
      rw [hlen]
      exact nearest_point_idx_lt pts qq hne
    rw [lookupLabels_ok labels _ hidx]
    exact ⟨_, rfl⟩
  · intro hh hw
    unfold labeled_image
    have hlen2 : (mgrid_coords h w).length = h * w := mgrid_length h w
    have hnz : mgrid_coords h w ≠ [] := by
      intro hnil
      rw [hnil] at hlen2
      have hpos := Nat.mul_pos hh hw
      simp at hlen2
      omega
    obtain ⟨q, qs, hq⟩ := List.exists_cons_of_ne_nil hnz
    rw [hq, List.map_cons]
    rfl

/-- Witness for C9: one point with one label succeeds on a 1 by 1 grid; the
empty interior set fails there. -/
theorem label_propagation_empty_interior_witness :
    (([((0 : ℚ), (0 : ℚ))] : List (ℚ × ℚ)) ≠ [] ∧
      ∃ img, labeled_image [((0 : ℚ), (0 : ℚ))] [5] 1 1 = .ok img) ∧
      ((0 : ℕ) < 1 ∧
        labeled_image [] [] 1 1 = .error "IndexError: index out of bounds for axis 0") :=
  ⟨⟨by simp, (label_propagation_empty_interior [((0 : ℚ), (0 : ℚ))] [5] 1 1).1 (by simp) rfl⟩,
   ⟨by norm_num,
    (label_propagation_empty_interior [((0 : ℚ), (0 : ℚ))] [5] 1 1).2
      (by norm_num) (by norm_num)⟩⟩
